import Mathlib

/-
Verification of the dataset-creator pipeline specification.

The runtime core of the repository (the imdataset_creator package) is configured
by a GUI and described by its README and spec; the notebook
manage_dataframe.ipynb holds the table-maintenance operations. Components
whose Python source is not in the repository snapshot are modelled from the
specification text, as marked on each definition.
-/

namespace DatasetCreator

/-- Cell values stored in metadata rows: a null marker, integers (sizes,
times, counts) and strings (paths, names). -/
inductive Value where
  | null : Value
  | nat : Nat → Value
  | str : String → Value
  deriving DecidableEq, Repr

/-- A metadata row: an association list from column names to cell values. -/
abbrev Row : Type := List (String × Value)

/-- Look up a column value in a row; none when the column is absent. -/
def lookupCol (row : Row) (c : String) : Option Value :=
  (row.find? (fun kv => kv.1 == c)).map (fun kv => kv.2)

/-- Modelled from the spec: a stateless Rule of the Rule Chain declares its
required input columns and a pure predicate on rows (spec section 3,
"Rule: declares required input columns ... and a pure predicate row →
boolean"). The stateful rules (total-count, hash-dedup) are modelled
separately. -/
structure Rule where
  required : List String
  pred : Row → Bool

/-- Configuration errors surfaced by rule evaluation. -/
inductive ConfigError where
  | missingColumn : String → ConfigError
  deriving DecidableEq, Repr

/-- All required columns of a rule are present in a row. -/
def hasCols (r : Rule) (row : Row) : Bool :=
  r.required.all (fun c => (lookupCol row c).isSome)

/-- Modelled from the spec: Rule Chain evaluation of one row, executing the
ordered rules top to bottom, failing fast with a configuration error when a
required column is missing, and short-circuiting on the first rule that
drops the row (spec section 4.3). The chain-evaluation code of
imdataset_creator is not in the repository snapshot. -/
def evalRow : List Rule → Row → Except ConfigError Bool
  | [], _ => Except.ok true
  | r :: rs, row =>
    match r.required.find? (fun c => (lookupCol row c).isNone) with
    | some c => Except.error (ConfigError.missingColumn c)
    | none => if r.pred row then evalRow rs row else Except.ok false

theorem find?_missing_eq_none {r : Rule} {row : Row} (h : hasCols r row = true) :
    r.required.find? (fun c => (lookupCol row c).isNone) = none := by
  rw [List.find?_eq_none]
  intro c hc
  have hs := List.all_eq_true.mp h c hc
  simp only [Bool.not_eq_true, Option.isNone_eq_false_iff]
  exact hs

theorem evalRow_append (l₁ l₂ : List Rule) (row : Row) :
    evalRow (l₁ ++ l₂) row =
      match evalRow l₁ row with
      | Except.ok true => evalRow l₂ row
      | x => x := by
  induction l₁ with
  | nil => simp [evalRow]
  | cons r rs ih =>
    simp only [List.cons_append, evalRow]
    cases hfind : r.required.find? (fun c => (lookupCol row c).isNone) with
    | some c => rfl
    | none =>
      cases hpred : r.pred row
      · simp
      · simp [ih]

theorem evalRow_all_of_hasCols (chain : List Rule) (row : Row)
    (h : ∀ q ∈ chain, hasCols q row = true) :
    evalRow chain row = Except.ok (chain.all (fun q => q.pred row)) := by
  induction chain with
  | nil => simp [evalRow]
  | cons r rs ih =>
    have hr := h r (by simp)
    simp only [evalRow, find?_missing_eq_none hr]
    cases hpred : r.pred row
    · simp [hpred]
    · simp [hpred, ih (fun q hq => h q (List.mem_cons_of_mem _ hq))]

/-- C1: Rule Chain evaluation is short-circuit AND: when the rules before
rule r accept the row and r (whose required columns are present) drops it,
the whole chain returns reject regardless of the rules after r; and for a
chain of stateless rules whose required columns are all present, swapping
any two rules yields the same accept/reject outcome. -/
theorem ruleChain_shortCircuit_and_swap (row : Row) :
    (∀ (pre post : List Rule) (r : Rule),
        evalRow pre row = Except.ok true → hasCols r row = true → r.pred row = false →
        evalRow (pre ++ r :: post) row = Except.ok false) ∧
    (∀ (l₁ l₂ l₃ : List Rule) (a b : Rule),
        (∀ q ∈ l₁ ++ a :: (l₂ ++ b :: l₃), hasCols q row = true) →
        evalRow (l₁ ++ a :: (l₂ ++ b :: l₃)) row =
          evalRow (l₁ ++ b :: (l₂ ++ a :: l₃)) row) := by
  constructor
  · intro pre post r hpre hcols hpred
    rw [evalRow_append, hpre]
    simp [evalRow, find?_missing_eq_none hcols, hpred]
  · intro l₁ l₂ l₃ a b h
    have h2 : ∀ q ∈ l₁ ++ b :: (l₂ ++ a :: l₃), hasCols q row = true := by
      intro q hq
      apply h
      simp only [List.mem_append, List.mem_cons] at hq ⊢
      tauto
    rw [evalRow_all_of_hasCols _ _ h, evalRow_all_of_hasCols _ _ h2]
    simp only [List.all_append, List.all_cons]
    cases a.pred row <;> cases b.pred row <;> simp

/-- Concrete instantiation of the short-circuit and swap properties of the
rule chain. -/
theorem ruleChain_shortCircuit_and_swap_witness :
    evalRow ([] ++ (⟨["width"], fun _ => false⟩ : Rule) ::
        [(⟨[], fun _ => true⟩ : Rule)]) [("width", Value.nat 100)] = Except.ok false ∧
    evalRow ([] ++ (⟨[], fun _ => true⟩ : Rule) ::
        ([] ++ (⟨[], fun _ => false⟩ : Rule) :: [])) [("width", Value.nat 100)] =
      evalRow ([] ++ (⟨[], fun _ => false⟩ : Rule) ::
        ([] ++ (⟨[], fun _ => true⟩ : Rule) :: [])) [("width", Value.nat 100)] := by
  constructor
  · exact (ruleChain_shortCircuit_and_swap _).1 [] [⟨[], fun _ => true⟩]
      ⟨["width"], fun _ => false⟩ rfl rfl rfl
  · refine (ruleChain_shortCircuit_and_swap _).2 [] [] [] _ _ ?_
    intro q hq
    simp only [List.nil_append, List.mem_cons, List.not_mem_nil, or_false] at hq
    rcases hq with rfl | rfl <;> rfl

/-- C8: a rule with a required column absent from the row never lets the
chain silently accept the row; and once the rules before it accept, the
chain fails with a missing-column configuration error. -/
theorem ruleChain_missingColumn_failsFast (row : Row) (pre post : List Rule) (r : Rule)
    (c : String) (hc : c ∈ r.required) (hmiss : lookupCol row c = none) :
    evalRow (pre ++ r :: post) row ≠ Except.ok true ∧
    (evalRow pre row = Except.ok true →
      ∃ c2, evalRow (pre ++ r :: post) row = Except.error (ConfigError.missingColumn c2)) := by
  have hfind : ∃ c2, r.required.find? (fun x => (lookupCol row x).isNone) = some c2 := by
    have hsome : (r.required.find? (fun x => (lookupCol row x).isNone)).isSome = true := by
      rw [List.find?_isSome]
      exact ⟨c, hc, by simp [hmiss]⟩
    exact Option.isSome_iff_exists.mp hsome
  obtain ⟨c2, hc2⟩ := hfind
  have hhead : evalRow (r :: post) row = Except.error (ConfigError.missingColumn c2) := by
    simp only [evalRow, hc2]
  rw [evalRow_append]
  constructor
  · rcases hpre : evalRow pre row with e | b
    · simp
    · cases b
      · simp
      · simp [hhead]
  · intro hpre
    rw [hpre]
    exact ⟨c2, hhead⟩

/-- Concrete instantiation: a chain whose rule requires the absent column
"width" errors out and does not accept. -/
theorem ruleChain_missingColumn_failsFast_witness :
    evalRow ([] ++ (⟨["width"], fun _ => true⟩ : Rule) :: []) [("path", Value.str "a.png")] ≠
      Except.ok true ∧
    (evalRow [] [("path", Value.str "a.png")] = Except.ok true →
      ∃ c2, evalRow ([] ++ (⟨["width"], fun _ => true⟩ : Rule) :: [])
        [("path", Value.str "a.png")] = Except.error (ConfigError.missingColumn c2)) := by
  exact ruleChain_missingColumn_failsFast [("path", Value.str "a.png")] [] []
    ⟨["width"], fun _ => true⟩ "width" (by simp) rfl

/-- A row is accepted by a list of stateless rules: evaluation succeeds
with keep. -/
def accepts (prior : List Rule) (row : Row) : Bool :=
  match evalRow prior row with
  | Except.ok true => true
  | _ => false

/-- Modelled from the spec: chain evaluation over the ordered candidate
list for a chain whose stateless rules are followed by the total-count
rule with cap `cap`. A counter shared across the whole chain evaluation
counts the rows accepted so far; while it is below the cap an accepted row
passes and the counter increments, thereafter every row is rejected (spec
section 4.3: "accept until a global counter ... reaches a configured cap;
thereafter reject all"). The total-count code of imdataset_creator is not
in the repository snapshot. -/
def totalCountRun (prior : List Rule) (cap : Nat) : List Row → Nat → List Row
  | [], _ => []
  | row :: rest, cnt =>
    if accepts prior row then
      if cnt < cap then row :: totalCountRun prior cap rest (cnt + 1)
      else totalCountRun prior cap rest cnt
    else totalCountRun prior cap rest cnt

theorem totalCountRun_length (prior : List Rule) (cap : Nat) (rows : List Row) :
    ∀ cnt, (totalCountRun prior cap rows cnt).length =
      min (cap - cnt) (rows.filter (accepts prior)).length := by
  induction rows with
  | nil => intro cnt; simp [totalCountRun]
  | cons row rest ih =>
    intro cnt
    by_cases hacc : accepts prior row = true
    · by_cases hlt : cnt < cap
      · simp only [totalCountRun, hacc, if_true, hlt, List.filter_cons, List.length_cons, ih]
        omega
      · simp only [totalCountRun, hacc, if_true, hlt, if_false, List.filter_cons,
          List.length_cons, ih]
        omega
    · simp only [totalCountRun, hacc, if_false, List.filter_cons]
      exact ih cnt

/-- C2: over a whole chain evaluation, the number of rows accepted by the
chain that runs the stateless rules `prior` followed by the total-count
rule with cap `cap` equals min(cap, number of rows accepted by the rules
preceding the total-count rule). -/
theorem totalCount_cap (prior : List Rule) (cap : Nat) (rows : List Row) :
    (totalCountRun prior cap rows 0).length =
      min cap (rows.filter (accepts prior)).length := by
  simpa using totalCountRun_length prior cap rows 0

/-- The first list is a leading segment of the second. -/
def leadsWith : List Char → List Char → Bool
  | [], _ => true
  | _ :: _, [] => false
  | a :: as, b :: bs => a == b && leadsWith as bs

/-- The second list contains the first as a contiguous substring. -/
def hasSub (needle : List Char) : List Char → Bool
  | [] => needle.isEmpty
  | b :: rest => leadsWith needle (b :: rest) || hasSub needle rest

/-- Modelled from the spec: the blacklist/whitelist rule predicate — accept
a path when (the whitelist is empty or some whitelist entry occurs in the
path) and no blacklist entry occurs in the path (spec section 4.3 and
README "Blacklist and whitelist"). The rule code of imdataset_creator is
not in the repository snapshot. -/
def blackWhiteAccept (whitelist blacklist : List (List Char)) (path : List Char) : Bool :=
  (whitelist.isEmpty || whitelist.any (fun w => hasSub w path)) &&
    blacklist.all (fun b => !hasSub b path)

/-- C6: the blacklist/whitelist rule accepts a path if and only if the
whitelist is empty or some whitelist substring occurs in the path, and no
blacklist substring occurs in the path. -/
theorem blackWhiteAccept_iff (whitelist blacklist : List (List Char)) (path : List Char) :
    blackWhiteAccept whitelist blacklist path = true ↔
      ((whitelist = [] ∨ ∃ w ∈ whitelist, hasSub w path = true) ∧
        ∀ b ∈ blacklist, hasSub b path = false) := by
  simp [blackWhiteAccept, List.isEmpty_iff, List.any_eq_true, List.all_eq_true]

/-- Modelled from the spec: the File Enumerator walks the root folder and
keeps every path matching at least one include pattern and no exclude
pattern (spec sections 2 and 8). Glob patterns are modelled as predicates
on paths; `allPaths` is the (duplicate-free) list of paths under the root.
The enumeration code of imdataset_creator is not in the repository
snapshot. -/
def enumerate (allPaths : List String) (includePats excludePats : List (String → Bool)) :
    List String :=
  allPaths.filter (fun p => includePats.any (fun m => m p) && !excludePats.any (fun m => m p))

/-- C7: every path under the root that matches at least one include
pattern and no exclude pattern appears exactly once in the enumerated
candidate sequence. -/
theorem enumerate_exactlyOnce (allPaths : List String)
    (includePats excludePats : List (String → Bool)) (p : String)
    (hnd : allPaths.Nodup) (hp : p ∈ allPaths)
    (hinc : ∃ m ∈ includePats, m p = true) (hexc : ∀ m ∈ excludePats, m p = false) :
    (enumerate allPaths includePats excludePats).count p = 1 := by
  refine List.count_eq_one_of_mem (hnd.filter _) ?_
  have hcond : (includePats.any (fun m => m p) && !excludePats.any (fun m => m p)) = true := by
    simp only [Bool.and_eq_true, List.any_eq_true, Bool.not_eq_true']
    refine ⟨hinc, ?_⟩
    rw [List.any_eq_false]
    intro m hm
    simp [hexc m hm]
  exact List.mem_filter.mpr ⟨hp, hcond⟩

/-- Concrete instantiation: a matching path among two files is enumerated
exactly once. -/
theorem enumerate_exactlyOnce_witness :
    (enumerate ["a.png", "b.txt"] [fun s => s == "a.png"] [fun s => s == "b.txt"]).count
      "a.png" = 1 := by
  refine enumerate_exactlyOnce _ _ _ _ (by decide) (by simp)
    ⟨fun s => s == "a.png", by simp, rfl⟩ ?_
  intro m hm
  simp only [List.mem_singleton] at hm
  subst hm
  rfl

/-- The Metadata Store in memory: a schema (column names) and row-major
rows of cell values. -/
structure Store where
  schema : List String
  rows : List (List Value)
  deriving DecidableEq, Repr

/-- A persisted columnar table file: column names, row count and one value
list per column. -/
structure SavedTable where
  names : List String
  height : Nat
  cols : List (List Value)
  deriving DecidableEq, Repr

/-- Column-major view of row-major rows: column i collects the i-th cell
of every row. -/
def colsOf (rows : List (List Value)) (n : Nat) : List (List Value) :=
  (List.range n).map (fun i => rows.map (fun r => r.getD i Value.null))

/-- Modelled from the spec: saving the Metadata Store to a columnar table
file, one column per schema entry (spec section 4.1; the store save code
of imdataset_creator is not in the repository snapshot — the notebook only
calls the write_ipc of the library on this columnar format). -/
def save (s : Store) : SavedTable :=
  ⟨s.schema, s.rows.length, colsOf s.rows s.schema.length⟩

/-- Modelled from the spec: loading a saved columnar table back into the
row-major Metadata Store (spec section 4.1; the notebook only calls the
read_ipc of the library). -/
def load (t : SavedTable) : Store :=
  ⟨t.names, (List.range t.height).map (fun j => t.cols.map (fun c => c.getD j Value.null))⟩

theorem range_map_getD {α : Type} (l : List α) (d : α) :
    (List.range l.length).map (fun j => l.getD j d) = l := by
  apply List.ext_getElem
  · simp
  · intro n h1 h2
    simp [List.getD_eq_getElem?_getD, List.getElem?_eq_getElem h2]

theorem load_save_rows (rows : List (List Value)) (n : Nat)
    (h : ∀ r ∈ rows, r.length = n) :
    (List.range rows.length).map
      (fun j => (colsOf rows n).map (fun c => c.getD j Value.null)) = rows := by
  apply List.ext_getElem
  · simp
  · intro j h1 h2
    simp only [List.getElem_map, List.getElem_range]
    rw [colsOf, List.map_map]
    have hrlen : (rows[j]).length = n := h _ (List.getElem_mem h2)
    have hstep : ∀ i ∈ List.range n,
        ((fun c => c.getD j Value.null) ∘ (fun i => rows.map (fun r => r.getD i Value.null))) i =
          (rows[j]).getD i Value.null := by
      intro i _
      simp [Function.comp, List.getD_eq_getElem?_getD, List.getElem?_map,
        List.getElem?_eq_getElem h2]
    rw [List.map_congr_left hstep, ← hrlen]
    exact range_map_getD _ _

/-- C3: saving the Metadata Store and loading it back yields an identical
store — same schema and same rows with identical values — for every store
whose rows all carry one cell per schema column. -/
theorem store_save_load_roundTrip (s : Store)
    (h : ∀ r ∈ s.rows, r.length = s.schema.length) :
    load (save s) = s := by
  cases s with
  | mk schema rows =>
    simp only [save, load, Store.mk.injEq]
    exact ⟨trivial, load_save_rows rows schema.length (by simpa using h)⟩

/-- Concrete instantiation: the one-row store from the spec round-trips
exactly. -/
theorem store_save_load_roundTrip_witness :
    load (save (⟨["path", "width", "height"],
        [[Value.str "a.png", Value.nat 100, Value.nat 200]]⟩ : Store)) =
      (⟨["path", "width", "height"],
        [[Value.str "a.png", Value.nat 100, Value.nat 200]]⟩ : Store) :=
  store_save_load_roundTrip _ (by decide)

/-- An accepted record reaching the Output Pipeline: its computed
destination path and the transformed image payload to write. -/
structure OutRecord where
  destPath : String
  payload : List Nat
  deriving DecidableEq, Repr

/-- Per-record outcome reported by the Output Pipeline. -/
inductive OutResult where
  | written : OutResult
  | skipped : OutResult
  deriving DecidableEq, Repr

/-- Modelled from the spec: the Output Pipeline step for one accepted
record — skip, leaving the file system untouched, when the destination
path already exists and overwriting is disabled; otherwise write the
payload at the destination (spec section 4.4 and README "Outputs"). The
output code of imdataset_creator is not in the repository snapshot. The
file system is a map from paths to file contents. -/
def processRecord (fs : String → Option (List Nat)) (overwrite : Bool) (record : OutRecord) :
    (String → Option (List Nat)) × OutResult :=
  match fs record.destPath, overwrite with
  | some _, false => (fs, OutResult.skipped)
  | _, _ => (fun p => if p == record.destPath then some record.payload else fs p,
      OutResult.written)

/-- C5: with overwriting disabled and the destination file already
present, the Output Pipeline leaves the file system — in particular the
contents of the existing destination file — unchanged and reports the record as
skipped. -/
theorem outputPipeline_skipsExisting (fs : String → Option (List Nat)) (record : OutRecord)
    (h : (fs record.destPath).isSome = true) :
    (processRecord fs false record).1 = fs ∧
      (processRecord fs false record).2 = OutResult.skipped := by
  rcases hd : fs record.destPath with _ | d
  · rw [hd] at h
    simp at h
  · constructor <;> simp [processRecord, hd]

/-- Concrete instantiation: an existing destination file is skipped and
its contents survive. -/
theorem outputPipeline_skipsExisting_witness :
    (processRecord (fun p => if p == "out.png" then some [7] else none) false
        ⟨"out.png", [9]⟩).1 = (fun p => if p == "out.png" then some [7] else none) ∧
      (processRecord (fun p => if p == "out.png" then some [7] else none) false
        ⟨"out.png", [9]⟩).2 = OutResult.skipped :=
  outputPipeline_skipsExisting _ _ (by rfl)

/-- Update a column of a row in place, appending it when absent. -/
def setCol : Row → String → Value → Row
  | [], c, v => [(c, v)]
  | (k, w) :: rest, c, v =>
    if k == c then (c, v) :: rest else (k, w) :: setCol rest c v

theorem lookupCol_setCol_self (row : Row) (c : String) (v : Value) :
    lookupCol (setCol row c v) c = some v := by
  induction row with
  | nil => simp [setCol, lookupCol, List.find?]
  | cons kv rest ih =>
    obtain ⟨k, w⟩ := kv
    by_cases hk : (k == c) = true
    · simp [setCol, hk, lookupCol, List.find?]
    · simp only [setCol, hk, Bool.false_eq_true, if_false]
      simpa [lookupCol, List.find?, hk] using ih

theorem lookupCol_setCol_ne (row : Row) (c c2 : String) (v : Value) (h : c2 ≠ c) :
    lookupCol (setCol row c v) c2 = lookupCol row c2 := by
  have hcc : (c == c2) = false := by
    simp only [beq_eq_false_iff_ne, ne_eq]
    exact fun e => h e.symm
  induction row with
  | nil => simp [setCol, lookupCol, List.find?, hcc]
  | cons kv rest ih =>
    obtain ⟨k, w⟩ := kv
    by_cases hk : (k == c) = true
    · have hk2 : (k == c2) = false := by
        have : k = c := by simpa using hk
        subst this
        exact hcc
      simp [setCol, hk, lookupCol, List.find?, hcc, hk2]
    · by_cases hk2 : (k == c2) = true
      · simp [setCol, hk, lookupCol, List.find?, hk2]
      · simp only [setCol, hk, Bool.false_eq_true, if_false]
        simpa [lookupCol, List.find?, hk2] using ih

theorem isSome_lookupCol_setCol (row : Row) (c c2 : String) (v : Value)
    (h : (lookupCol row c2).isSome = true) :
    (lookupCol (setCol row c v) c2).isSome = true := by
  by_cases hc : c2 = c
  · subst hc
    simp [lookupCol_setCol_self]
  · rwa [lookupCol_setCol_ne row c c2 v hc]

/-- Modelled from the spec: a Producer declares its output columns and a
pure function from the existing row to the value of each output column (spec
section 3: "Producer: declares name, output column names, and a pure
function path × existing-row → column values"). The producer code of
imdataset_creator is not in the repository snapshot. -/
structure Producer where
  outputs : List String
  fn : Row → String → Value

/-- Run one producer on a row: set each of its output columns. -/
def runProducer (p : Producer) (row : Row) : Row :=
  p.outputs.foldl (fun acc c => setCol acc c (p.fn row c)) row

/-- The checked-time of the row, 0 when absent. -/
def checkedTimeOf (row : Row) : Nat :=
  match lookupCol row "checkedtime" with
  | some (Value.nat n) => n
  | _ => 0

/-- The modified-time of the row, 0 when absent. -/
def modTimeOf (row : Row) : Nat :=
  match lookupCol row "modifiedtime" with
  | some (Value.nat n) => n
  | _ => 0

/-- A row is stale when its checked-time is older than its modified-time
(spec section 3, FileRecord lifecycle). -/
def isStale (row : Row) : Bool :=
  decide (checkedTimeOf row < modTimeOf row)

/-- A producer must run on a row when one of its output columns is absent
or the row is stale (spec section 4.2: "run only the producers whose
target columns are missing or stale"). -/
def needsRun (p : Producer) (row : Row) : Bool :=
  p.outputs.any (fun c => (lookupCol row c).isNone) || isStale row

/-- Modelled from the spec: one population pass over a single row — run
exactly the producers that need to run, merge their outputs into the row,
and stamp the checked-time of the row; a row needing nothing is left untouched
(spec section 4.2). The population code of imdataset_creator is not in the
repository snapshot. -/
def populateRow (producers : List Producer) (now : Nat) (row : Row) : Row :=
  if (producers.filter (fun p => needsRun p row)).isEmpty then row
  else
    setCol ((producers.filter (fun p => needsRun p row)).foldl
      (fun acc p => runProducer p acc) row) "checkedtime" (Value.nat now)

/-- Modelled from the spec: the population pass over the whole Metadata
Store (spec section 4.2). -/
def populate (producers : List Producer) (now : Nat) (store : List Row) : List Row :=
  store.map (populateRow producers now)

theorem foldl_setCols_presence (cols : List String) (g : String → Value) (row : Row)
    (c2 : String) (h : (lookupCol row c2).isSome = true) :
    (lookupCol (cols.foldl (fun acc c => setCol acc c (g c)) row) c2).isSome = true := by
  induction cols generalizing row with
  | nil => exact h
  | cons c cs ih => exact ih _ (isSome_lookupCol_setCol _ _ _ _ h)

theorem foldl_setCols_sets (cols : List String) (g : String → Value) (row : Row)
    (c2 : String) (h : c2 ∈ cols) :
    (lookupCol (cols.foldl (fun acc c => setCol acc c (g c)) row) c2).isSome = true := by
  induction cols generalizing row with
  | nil => cases h
  | cons c cs ih =>
    rcases List.mem_cons.mp h with rfl | h2
    · exact foldl_setCols_presence cs g _ c2 (by simp [lookupCol_setCol_self])
    · exact ih _ h2

theorem foldl_setCols_other (cols : List String) (g : String → Value) (row : Row)
    (c2 : String) (h : c2 ∉ cols) :
    lookupCol (cols.foldl (fun acc c => setCol acc c (g c)) row) c2 = lookupCol row c2 := by
  induction cols generalizing row with
  | nil => rfl
  | cons c cs ih =>
    have hne : c2 ≠ c := fun e => h (e ▸ List.mem_cons_self c cs)
    rw [List.foldl_cons, ih (setCol row c (g c)) (fun e => h (List.mem_cons_of_mem c e)),
      lookupCol_setCol_ne _ _ _ _ hne]

theorem runProducer_presence (p : Producer) (row : Row) (c2 : String)
    (h : (lookupCol row c2).isSome = true) :
    (lookupCol (runProducer p row) c2).isSome = true :=
  foldl_setCols_presence p.outputs (p.fn row) row c2 h

theorem runProducer_sets (p : Producer) (row : Row) (c2 : String) (h : c2 ∈ p.outputs) :
    (lookupCol (runProducer p row) c2).isSome = true :=
  foldl_setCols_sets p.outputs (p.fn row) row c2 h

theorem runProducer_other (p : Producer) (row : Row) (c2 : String) (h : c2 ∉ p.outputs) :
    lookupCol (runProducer p row) c2 = lookupCol row c2 :=
  foldl_setCols_other p.outputs (p.fn row) row c2 h

theorem foldl_producers_presence (ps : List Producer) (row : Row) (c2 : String)
    (h : (lookupCol row c2).isSome = true) :
    (lookupCol (ps.foldl (fun acc p => runProducer p acc) row) c2).isSome = true := by
  induction ps generalizing row with
  | nil => exact h
  | cons p ps2 ih => exact ih _ (runProducer_presence p row c2 h)

theorem foldl_producers_sets (ps : List Producer) (row : Row) (p : Producer)
    (hp : p ∈ ps) (c2 : String) (hc : c2 ∈ p.outputs) :
    (lookupCol (ps.foldl (fun acc p2 => runProducer p2 acc) row) c2).isSome = true := by
  induction ps generalizing row with
  | nil => cases hp
  | cons q qs ih =>
    rcases List.mem_cons.mp hp with rfl | h2
    · exact foldl_producers_presence qs _ c2 (runProducer_sets p row c2 hc)
    · exact ih _ h2

theorem foldl_producers_other (ps : List Producer) (row : Row) (c2 : String)
    (h : ∀ p ∈ ps, c2 ∉ p.outputs) :
    lookupCol (ps.foldl (fun acc p => runProducer p acc) row) c2 = lookupCol row c2 := by
  induction ps generalizing row with
  | nil => rfl
  | cons q qs ih =>
    rw [List.foldl_cons, ih (runProducer q row) (fun p hp => h p (List.mem_cons_of_mem q hp)),
      runProducer_other q row c2 (h q (List.mem_cons_self q qs))]

theorem populateRow_of_noNeeds (producers : List Producer) (now : Nat) (row : Row)
    (h : (producers.filter (fun p => needsRun p row)).isEmpty = true) :
    populateRow producers now row = row := by
  simp [populateRow, h]

theorem populateRow_idem (producers : List Producer) (now : Nat) (row : Row)
    (hmod : modTimeOf row ≤ now)
    (hout : ∀ p ∈ producers, "modifiedtime" ∉ p.outputs) :
    populateRow producers now (populateRow producers now row) =
      populateRow producers now row := by
  by_cases hempty : (producers.filter (fun p => needsRun p row)).isEmpty = true
  · have h1 := populateRow_of_noNeeds producers now row hempty
    rw [h1]
    exact h1
  · have hrow2 : populateRow producers now row =
        setCol ((producers.filter (fun p => needsRun p row)).foldl
          (fun acc p => runProducer p acc) row) "checkedtime" (Value.nat now) := by
      simp [populateRow, hempty]
    have hmod2 : lookupCol (populateRow producers now row) "modifiedtime" =
        lookupCol row "modifiedtime" := by
      rw [hrow2, lookupCol_setCol_ne _ _ _ _ (by decide), foldl_producers_other]
      intro p hp
      exact hout p (List.mem_filter.mp hp).1
    have hstale : isStale (populateRow producers now row) = false := by
      have hchk : checkedTimeOf (populateRow producers now row) = now := by
        rw [checkedTimeOf, hrow2, lookupCol_setCol_self]
      have hmt : modTimeOf (populateRow producers now row) = modTimeOf row := by
        rw [modTimeOf, hmod2, modTimeOf]
      rw [isStale, hchk, hmt]
      simpa using Nat.not_lt.mpr hmod
    have hpresent : ∀ p ∈ producers, ∀ c ∈ p.outputs,
        (lookupCol (populateRow producers now row) c).isSome = true := by
      intro p hp c hc
      rw [hrow2]
      by_cases hcchk : c = "checkedtime"
      · subst hcchk
        simp [lookupCol_setCol_self]
      · apply isSome_lookupCol_setCol _ _ _ _
        by_cases hneed : needsRun p row = true
        · exact foldl_producers_sets _ row p (List.mem_filter.mpr ⟨hp, hneed⟩) c hc
        · apply foldl_producers_presence
          have hfalse : needsRun p row = false := Bool.eq_false_iff.mpr hneed
          rw [needsRun, Bool.or_eq_false_iff] at hfalse
          have hmiss := List.any_eq_false.mp hfalse.1 c hc
          simp only [Bool.not_eq_true, Option.isNone_eq_false_iff] at hmiss
          exact hmiss
    have hneeds2 : ∀ p ∈ producers,
        needsRun p (populateRow producers now row) = false := by
      intro p hp
      rw [needsRun, Bool.or_eq_false_iff]
      refine ⟨?_, hstale⟩
      rw [List.any_eq_false]
      intro c hc
      simp only [Bool.not_eq_true, Option.isNone_eq_false_iff]
      exact hpresent p hp c hc
    have hempty2 : (producers.filter
        (fun p => needsRun p (populateRow producers now row))).isEmpty = true := by
      rw [List.isEmpty_iff, List.filter_eq_nil_iff]
      intro p hp
      simp [hneeds2 p hp]
    exact populateRow_of_noNeeds _ _ _ hempty2

/-- C4: producer population is idempotent — with unmodified files (every
modified-time of every row is at or before the pass time) and an unchanged
producer selection (producers never write the modified-time column),
running the population pass a second time leaves the Metadata Store
identical to the state after the first run. -/
theorem populate_idempotent (producers : List Producer) (now : Nat) (store : List Row)
    (hmod : ∀ row ∈ store, modTimeOf row ≤ now)
    (hout : ∀ p ∈ producers, "modifiedtime" ∉ p.outputs) :
    populate producers now (populate producers now store) =
      populate producers now store := by
  simp only [populate, List.map_map]
  apply List.map_congr_left
  intro row hrow
  exact populateRow_idem producers now row (hmod row hrow) hout

/-- Concrete instantiation: one producer filling the width column over a
one-row store; a second population pass changes nothing. -/
theorem populate_idempotent_witness :
    populate [⟨["width"], fun _ _ => Value.nat 100⟩] 10
        (populate [⟨["width"], fun _ _ => Value.nat 100⟩] 10
          [[("path", Value.str "a.png"), ("modifiedtime", Value.nat 5)]]) =
      populate [⟨["width"], fun _ _ => Value.nat 100⟩] 10
        [[("path", Value.str "a.png"), ("modifiedtime", Value.nat 5)]] := by
  refine populate_idempotent _ 10 _ ?_ ?_
  · intro row hrow
    simp only [List.mem_singleton] at hrow
    subst hrow
    decide
  · intro p hp
    simp only [List.mem_singleton] at hp
    subst hp
    decide


/-- A polars dataframe as manipulated by the notebook: named columns and
row-major cell lists. -/
structure DF where
  cols : List String
  rows : List (List Value)
  deriving DecidableEq, Repr

/-- Index of a named column in a dataframe, none when absent. -/
def colIdx (df : DF) (name : String) : Option Nat :=
  df.cols.findIdx? (fun c => c == name)

/-- The with_columns call of the notebook with a single series: replace
the cells of the column in place when the name already exists, append the
column at the end otherwise (polars semantics). -/
def withColumn (df : DF) (name : String) (vals : List Value) : DF :=
  match colIdx df name with
  | some i => ⟨df.cols, (df.rows.zip vals).map (fun rv => rv.1.set i rv.2)⟩
  | none => ⟨df.cols ++ [name], (df.rows.zip vals).map (fun rv => rv.1 ++ [rv.2])⟩

/-- Total Boolean comparison on cell values used for sorting: null first,
then numbers, then strings. -/
def valLe (a b : Value) : Bool :=
  match a, b with
  | Value.null, _ => true
  | _, Value.null => false
  | Value.nat m, Value.nat n => decide (m ≤ n)
  | Value.nat _, Value.str _ => true
  | Value.str _, Value.nat _ => false
  | Value.str s, Value.str t => decide (s ≤ t)

/-- The sort call of the notebook: order the rows by the cells of one
column. -/
def sortByCol (df : DF) (name : String) : DF :=
  match colIdx df name with
  | some i => ⟨df.cols,
      List.insertionSort
        (fun r1 r2 => valLe (r1.getD i Value.null) (r2.getD i Value.null) = true) df.rows⟩
  | none => df

/-- The drop call of the notebook: remove a named column and its cell in
every row. -/
def dropColumn (df : DF) (name : String) : DF :=
  match colIdx df name with
  | some i => ⟨df.cols.eraseIdx i, df.rows.map (fun r => r.eraseIdx i)⟩
  | none => df

/-- The shuffle of the notebook: attach a random key column named "rnd", sort
by it, then drop it (manage_dataframe.ipynb, shuffle). The random draws of
random.random() are abstracted as the `keys` parameter, one key per row. -/
def shuffle (df : DF) (keys : List Nat) : DF :=
  dropColumn (sortByCol (withColumn df "rnd" (keys.map Value.nat)) "rnd") "rnd"

theorem findIdx?_eq_none_of_not_mem (cols : List String) (name : String) (h : name ∉ cols) :
    List.findIdx? (fun c => c == name) cols = none := by
  induction cols with
  | nil => rfl
  | cons c cs ih =>
    have hne : (c == name) = false := by
      simp only [beq_eq_false_iff_ne, ne_eq]
      exact fun e => h (e ▸ List.mem_cons_self c cs)
    simp [List.findIdx?_cons, hne, ih (fun e => h (List.mem_cons_of_mem c e))]

theorem findIdx?_append_self (cols : List String) (name : String) (h : name ∉ cols) :
    List.findIdx? (fun c => c == name) (cols ++ [name]) = some cols.length := by
  induction cols with
  | nil => simp [List.findIdx?_cons]
  | cons c cs ih =>
    have hne : (c == name) = false := by
      simp only [beq_eq_false_iff_ne, ne_eq]
      exact fun e => h (e ▸ List.mem_cons_self c cs)
    simp [List.findIdx?_cons, hne, ih (fun e => h (List.mem_cons_of_mem c e))]

theorem eraseIdx_append_last {α : Type} (l : List α) (a : α) :
    (l ++ [a]).eraseIdx l.length = l := by
  induction l with
  | nil => rfl
  | cons x xs ih => simp [List.eraseIdx, ih]

theorem zip_append_erase (rows : List (List Value)) (vals : List Value) (n : Nat)
    (hwf : ∀ r ∈ rows, r.length = n) (hlen : rows.length ≤ vals.length) :
    ((rows.zip vals).map (fun rv => rv.1 ++ [rv.2])).map (fun r => r.eraseIdx n) = rows := by
  rw [List.map_map]
  have hpt : ∀ rv ∈ rows.zip vals,
      ((fun r => List.eraseIdx r n) ∘ (fun rv : List Value × Value => rv.1 ++ [rv.2])) rv =
        Prod.fst rv := by
    intro rv hrv
    have h1 : rv.1 ∈ rows := (List.of_mem_zip hrv).1
    have h2 := hwf _ h1
    simp only [Function.comp_apply]
    rw [← h2, eraseIdx_append_last]
  rw [List.map_congr_left hpt, List.map_fst_zip _ _ hlen]

/-- C9 (amended): for a dataframe with no column named "rnd" (the
random-column name of the notebook), well-formed rows, and one random key per
row, shuffle returns a permutation of the dataframe: same column names,
same height, same multiset of rows. -/
theorem shuffle_perm (df : DF) (keys : List Nat)
    (hfresh : "rnd" ∉ df.cols)
    (hlen : keys.length = df.rows.length)
    (hwf : ∀ r ∈ df.rows, r.length = df.cols.length) :
    (shuffle df keys).cols = df.cols ∧
      (shuffle df keys).rows.length = df.rows.length ∧
      (shuffle df keys).rows.Perm df.rows := by
  obtain ⟨cols, rows⟩ := df
  simp only at hfresh hlen hwf
  have hnone : colIdx ⟨cols, rows⟩ "rnd" = none :=
    findIdx?_eq_none_of_not_mem cols "rnd" hfresh
  have hidx : colIdx ⟨cols ++ ["rnd"],
      (rows.zip (keys.map Value.nat)).map (fun rv => rv.1 ++ [rv.2])⟩ "rnd" =
        some cols.length :=
    findIdx?_append_self cols "rnd" hfresh
  have hw : withColumn ⟨cols, rows⟩ "rnd" (keys.map Value.nat) =
      ⟨cols ++ ["rnd"], (rows.zip (keys.map Value.nat)).map (fun rv => rv.1 ++ [rv.2])⟩ := by
    simp [withColumn, hnone]
  have hs : shuffle ⟨cols, rows⟩ keys =
      dropColumn ⟨cols ++ ["rnd"],
        List.insertionSort
          (fun r1 r2 =>
            valLe (r1.getD cols.length Value.null) (r2.getD cols.length Value.null) = true)
          ((rows.zip (keys.map Value.nat)).map (fun rv => rv.1 ++ [rv.2]))⟩ "rnd" := by
    rw [shuffle, hw, sortByCol, hidx]
  have hidx2 : colIdx ⟨cols ++ ["rnd"],
      List.insertionSort
        (fun r1 r2 =>
          valLe (r1.getD cols.length Value.null) (r2.getD cols.length Value.null) = true)
        ((rows.zip (keys.map Value.nat)).map (fun rv => rv.1 ++ [rv.2]))⟩ "rnd" =
        some cols.length :=
    findIdx?_append_self cols "rnd" hfresh
  rw [hs, dropColumn, hidx2]
  have hperm : (List.insertionSort
      (fun r1 r2 =>
        valLe (r1.getD cols.length Value.null) (r2.getD cols.length Value.null) = true)
      ((rows.zip (keys.map Value.nat)).map (fun rv => rv.1 ++ [rv.2]))).map
        (fun r => r.eraseIdx cols.length) |>.Perm rows := by
    have h1 := (List.perm_insertionSort
      (fun r1 r2 =>
        valLe (r1.getD cols.length Value.null) (r2.getD cols.length Value.null) = true)
      ((rows.zip (keys.map Value.nat)).map (fun rv => rv.1 ++ [rv.2]))).map
        (fun r => List.eraseIdx r cols.length)
    have h2 : ((rows.zip (keys.map Value.nat)).map (fun rv => rv.1 ++ [rv.2])).map
        (fun r => List.eraseIdx r cols.length) = rows :=
      zip_append_erase rows (keys.map Value.nat) cols.length hwf (by simp [hlen])
    rw [h2] at h1
    exact h1
  exact ⟨eraseIdx_append_last cols "rnd", hperm.length_eq, hperm⟩

/-- Concrete instantiation of the amended shuffle property on a two-row
dataframe. -/
theorem shuffle_perm_witness :
    (shuffle (⟨["path"], [[Value.str "a"], [Value.str "b"]]⟩ : DF) [1, 0]).cols =
        ["path"] ∧
      (shuffle (⟨["path"], [[Value.str "a"], [Value.str "b"]]⟩ : DF) [1, 0]).rows.length = 2 ∧
      (shuffle (⟨["path"], [[Value.str "a"], [Value.str "b"]]⟩ : DF) [1, 0]).rows.Perm
        [[Value.str "a"], [Value.str "b"]] :=
  shuffle_perm ⟨["path"], [[Value.str "a"], [Value.str "b"]]⟩ [1, 0] (by decide) (by decide)
    (by decide)

/-- C9 counterexample: on a dataframe that already has a column named
"rnd" — the name shuffle uses for its temporary random column — shuffle
replaces the values of that column with the random keys and then drops it, so
the result does not keep the original column names. -/
theorem shuffle_rndColumn_counterexample :
    (shuffle (⟨["rnd"], [[Value.nat 5]]⟩ : DF) [0]).cols ≠
      (⟨["rnd"], [[Value.nat 5]]⟩ : DF).cols := by
  decide

/-- Indexed map with an explicit starting index. -/
def mapWithIdx {α β : Type} (f : Nat → α → β) : Nat → List α → List β
  | _, [] => []
  | i, x :: xs => f i x :: mapWithIdx f (i + 1) xs

/-- The drop_rand of the notebook (manage_dataframe.ipynb): mask every cell of
the non-excluded columns — a cell is kept when its random draw is under
the threshold and replaced by null otherwise — then restore the excluded
columns from the original frame and reorder to the original column list.
`keep i j` abstracts the draw comparison rnd(cell) < thresh at row i,
column j. -/
def drop_rand (df : DF) (exclude : List String) (keep : Nat → Nat → Bool) : DF :=
  ⟨df.cols,
    mapWithIdx (fun i r =>
      mapWithIdx (fun j v =>
        if df.cols.getD j "" ∈ exclude then v
        else if keep i j then v else Value.null) 0 r) 0 df.rows⟩

/-- Cell of a dataframe at row i, column j; null when out of range. -/
def cellAt (df : DF) (i j : Nat) : Value :=
  (df.rows.getD i []).getD j Value.null

theorem length_mapWithIdx {α β : Type} (f : Nat → α → β) :
    ∀ (k : Nat) (l : List α), (mapWithIdx f k l).length = l.length := by
  intro k l
  induction l generalizing k with
  | nil => rfl
  | cons x xs ih => simp [mapWithIdx, ih]

theorem getElem?_mapWithIdx {α β : Type} (f : Nat → α → β) :
    ∀ (k i : Nat) (l : List α), (mapWithIdx f k l)[i]? = (l[i]?).map (f (k + i)) := by
  intro k i l
  induction l generalizing k i with
  | nil => simp [mapWithIdx]
  | cons x xs ih =>
    cases i with
    | zero => simp [mapWithIdx]
    | succ m =>
      simp only [mapWithIdx, List.getElem?_cons_succ]
      rw [ih (k + 1) m]
      have harith : k + 1 + m = k + (m + 1) := by omega
      rw [harith]

theorem cellAt_drop_rand (df : DF) (exclude : List String) (keep : Nat → Nat → Bool)
    (i j : Nat) :
    cellAt (drop_rand df exclude keep) i j =
      if df.cols.getD j "" ∈ exclude then cellAt df i j
      else if keep i j then cellAt df i j else Value.null := by
  rcases hri : df.rows[i]? with _ | r
  · have e1 : cellAt df i j = Value.null := by
      simp [cellAt, List.getD_eq_getElem?_getD, hri]
    have e2 : cellAt (drop_rand df exclude keep) i j = Value.null := by
      simp [cellAt, drop_rand, List.getD_eq_getElem?_getD, getElem?_mapWithIdx, hri]
    rw [e1, e2]
    simp
  · rcases hrj : r[j]? with _ | v
    · have e1 : cellAt df i j = Value.null := by
        simp [cellAt, List.getD_eq_getElem?_getD, hri, hrj]
      have e2 : cellAt (drop_rand df exclude keep) i j = Value.null := by
        simp [cellAt, drop_rand, List.getD_eq_getElem?_getD, getElem?_mapWithIdx, hri,
          Nat.zero_add, hrj]
      rw [e1, e2]
      simp
    · have e1 : cellAt df i j = v := by
        simp [cellAt, List.getD_eq_getElem?_getD, hri, hrj]
      have e2 : cellAt (drop_rand df exclude keep) i j =
          (if df.cols.getD j "" ∈ exclude then v
            else if keep i j then v else Value.null) := by
        simp [cellAt, drop_rand, List.getD_eq_getElem?_getD, getElem?_mapWithIdx, hri,
          Nat.zero_add, hrj]
      rw [e1, e2]

/-- C10: drop_rand removes no rows and keeps the schema — the result has
the same height and the same column names in the same order; every cell
of an excluded column is unchanged, and every other cell is either
unchanged or replaced by null. The excluded names must name columns of
the frame (polars select raises otherwise). -/
theorem drop_rand_frame (df : DF) (exclude : List String) (keep : Nat → Nat → Bool)
    (_hval : ∀ c ∈ exclude, c ∈ df.cols) :
    (drop_rand df exclude keep).cols = df.cols ∧
      (drop_rand df exclude keep).rows.length = df.rows.length ∧
      ∀ i j, (df.cols.getD j "" ∈ exclude →
          cellAt (drop_rand df exclude keep) i j = cellAt df i j) ∧
        (cellAt (drop_rand df exclude keep) i j = cellAt df i j ∨
          cellAt (drop_rand df exclude keep) i j = Value.null) := by
  refine ⟨rfl, ?_, ?_⟩
  · simp [drop_rand, length_mapWithIdx]
  · intro i j
    rw [cellAt_drop_rand]
    constructor
    · intro hmem
      rw [if_pos hmem]
    · by_cases hmem : df.cols.getD j "" ∈ exclude
      · rw [if_pos hmem]
        exact Or.inl rfl
      · rw [if_neg hmem]
        by_cases hkeep : keep i j = true
        · rw [if_pos hkeep]
          exact Or.inl rfl
        · rw [if_neg hkeep]
          exact Or.inr rfl

/-- Concrete instantiation of the drop_rand frame properties on a one-row
frame excluding the path column. -/
theorem drop_rand_frame_witness :
    (drop_rand (⟨["path", "width"], [[Value.str "a.png", Value.nat 3]]⟩ : DF) ["path"]
        (fun _ _ => false)).cols = ["path", "width"] ∧
      (drop_rand (⟨["path", "width"], [[Value.str "a.png", Value.nat 3]]⟩ : DF) ["path"]
        (fun _ _ => false)).rows.length = 1 ∧
      ∀ i j, ((["path", "width"] : List String).getD j "" ∈ (["path"] : List String) →
          cellAt (drop_rand (⟨["path", "width"], [[Value.str "a.png", Value.nat 3]]⟩ : DF)
            ["path"] (fun _ _ => false)) i j =
            cellAt (⟨["path", "width"], [[Value.str "a.png", Value.nat 3]]⟩ : DF) i j) ∧
        (cellAt (drop_rand (⟨["path", "width"], [[Value.str "a.png", Value.nat 3]]⟩ : DF)
            ["path"] (fun _ _ => false)) i j =
            cellAt (⟨["path", "width"], [[Value.str "a.png", Value.nat 3]]⟩ : DF) i j ∨
          cellAt (drop_rand (⟨["path", "width"], [[Value.str "a.png", Value.nat 3]]⟩ : DF)
            ["path"] (fun _ _ => false)) i j = Value.null) :=
  drop_rand_frame (⟨["path", "width"], [[Value.str "a.png", Value.nat 3]]⟩ : DF) ["path"]
    (fun _ _ => false) (by decide)

end DatasetCreator
